import Mathlib

/-!
Verification of behavioural claims about the allegro/mesos-executor task
executor. The Go sources are embedded shallowly: pure control flow becomes
Lean functions, durations and instants become integers counted in
nanoseconds, the random number generator and the system clock become
explicit arguments, channel-driven loops become functions over the list of
events they consume, and operations that can panic return Option.
-/

namespace MesosExec

/-! ## Mesos task states (mesos.TaskState values used by the executor) -/

/-- Task states emitted by the executor through the state updater. -/
inductive TaskState where
  | taskStarting
  | taskRunning
  | taskKilling
  | taskKilled
  | taskFailed
  | taskFinished
deriving DecidableEq, Repr

/-- A state is terminal when Mesos treats it as the final report for a task:
TASK_KILLED, TASK_FAILED or TASK_FINISHED. -/
def TaskState.isTerminal : TaskState → Bool
  | taskKilled => true
  | taskFailed => true
  | taskFinished => true
  | _ => false

/-- Number of terminal status updates in an emitted sequence. -/
def countTerminal (l : List TaskState) : Nat :=
  l.countP (fun s => s.isTerminal)

/-! ## Hook manager (hook/manager.go)

A hook invocation is abstracted by its outcome: the environment additions it
would return and its error, if any. Manager.HandleEvent consults hooks in
list order, so running the manager over a list of outcomes mirrors the Go
loop exactly. -/

/-- Outcome of one hook invocation: env additions and optional error
(hook.HandleEvent returns (Env, error)). -/
structure HookRes where
  env : List String
  err : Option String
deriving DecidableEq, Repr

/-- Loop body of Manager.HandleEvent (hook/manager.go lines 17-34), as a
recursion over the remaining hooks. Carries the combinedEnv accumulator.
Returns the result of the manager together with the number of hooks that
were invoked. -/
def handleEventAux : List HookRes → Bool → List String → Except String (List String) × Nat
  | [], _, acc => (Except.ok acc, 0)
  | h :: t, ignoreErrors, acc =>
    match h.err with
    | some e =>
      if ignoreErrors then
        let r := handleEventAux t ignoreErrors acc
        (r.1, r.2 + 1)
      else
        (Except.error e, 1)
    | none =>
      let r := handleEventAux t ignoreErrors (acc ++ h.env)
      (r.1, r.2 + 1)

/-- Manager.HandleEvent: invoke the hooks in order starting from an empty
combined environment. -/
def handleEvent (hooks : List HookRes) (ignoreErrors : Bool) : Except String (List String) × Nat :=
  handleEventAux hooks ignoreErrors []

/-- Environment additions of exactly the successful hooks, concatenated in
hook order. -/
def successEnv (hooks : List HookRes) : List String :=
  ((hooks.filter (fun h => h.err.isNone)).map HookRes.env).flatten

/-! ## Internal executor events (executor.go, type Event/EventType)

Events drive the single-threaded task event loop. Collaborator outcomes
that the loop consults while processing an event are carried on the event
as oracle flags: launch carries whether launchTask succeeds, healthy
carries whether the AfterTaskHealthy hook group fails. -/

/-- Internal executor event. Message payloads are kept where the loop reads
them. -/
inductive LoopEvent where
  | subscribed (taskKillingCap : Bool)
  | launch (ok : Bool)
  | healthy (hookErr : Bool)
  | unhealthy (msg : String)
  | failedDueToUnhealthy (msg : String)
  | failedCert (msg : String)
  | commandExited (msg : String)
  | kill
  | shutdown
deriving DecidableEq, Repr

/-! ## Durations, configuration sanitisation and the random source
(executor.go sanitizeConfig, clock.go) -/

/-- One second in nanoseconds (go time.Second). -/
def timeSecond : Int := 1000000000

/-- One hour in nanoseconds (go time.Hour). -/
def timeHour : Int := 3600 * timeSecond

/-- The executor configuration fields touched by sanitizeConfig. Durations
are nanosecond counts, as in go time.Duration. -/
structure Config where
  apiPath : String
  httpTimeout : Int
  randomExpirationRange : Int
  recoveryTimeout : Int
  subscriptionBackoffMax : Int
deriving DecidableEq, Repr

/-- sanitizeConfig (executor.go): replace non-positive or empty settings
with their defaults before the executor is constructed by StartExecutor. -/
def sanitizeConfig (conf : Config) : Config :=
  let c1 := if conf.randomExpirationRange ≤ 0 then { conf with randomExpirationRange := 3 * timeHour } else conf
  let c2 := if c1.apiPath = "" then { c1 with apiPath := "/api/v1/executor" } else c1
  let c3 := if c2.httpTimeout ≤ 0 then { c2 with httpTimeout := 10 * timeSecond } else c2
  let c4 := if c3.recoveryTimeout ≤ 0 then { c3 with recoveryTimeout := timeSecond } else c3
  if c4.subscriptionBackoffMax < timeSecond then { c4 with subscriptionBackoffMax := timeSecond } else c4

/-- math/rand Intn(n): panics (none) when n is not positive, otherwise a
pseudo-random value in the half-open interval from 0 to n. The stream of
the generator is abstracted by the draw argument; the modulo keeps the
result in range for any draw. -/
def randIntn (draw n : Int) : Option Int :=
  if n ≤ 0 then none else some (draw % n)

/-- mathRandom.Duration (clock.go line 32-34): Duration(r.Intn(int(max))). -/
def randomDuration (draw maxDur : Int) : Option Int :=
  randIntn draw maxDur

/-- Error message produced by checkCert for a non-positive validity
window. -/
def certErrMsg : String := "certificate valid period <= 0"

/-- Executor.checkCert (executor.go lines 535-548) with the clock and the
random generator made explicit: untilNotAfter stands for
clock.Until(cert.NotAfter) and jitter for random.Duration(range). On
success the armed timer is returned as its duration together with the
event it will inject into the event channel when it fires. -/
def checkCert (untilNotAfter jitter : Int) : Except String (Int × LoopEvent) :=
  let certDuration := untilNotAfter - jitter
  if certDuration ≤ 0 then Except.error certErrMsg
  else Except.ok (certDuration, LoopEvent.failedCert "Certificate expired")

/-- checkCert including the call random.Duration(randomExpirationRange):
none models the panic of rand.Intn on a non-positive argument. -/
def checkCertRun (untilNotAfter draw range : Int) : Option (Except String (Int × LoopEvent)) :=
  (randomDuration draw range).map (fun jitter => checkCert untilNotAfter jitter)

/-! ## Health supervisor result handling (health_checker.go) -/

/-- Events the health result handler can feed into the executor loop. -/
inductive HealthEvent where
  | healthy
  | unhealthy (msg : String)
  | failedDueToUnhealthy (msg : String)
deriving DecidableEq, Repr

/-- Mutable state of handleHealthResults: the neverPassedBefore flag and
the consecutiveFailures counter. -/
structure HealthState where
  neverPassedBefore : Bool
  consecutiveFailures : Nat
deriving DecidableEq, Repr

/-- go time.Time.Truncate(d): round the instant down to a multiple of d
since the zero time; for non-positive d the instant is unchanged.
Instants are nanosecond counts since the zero time. -/
def timeTruncate (t d : Int) : Int :=
  if d ≤ 0 then t else t - t % d

/-- The startTime computed by handleHealthResults (health_checker.go line
54): time.Now().Truncate(delay) evaluated at the start instant of the
handler. -/
def healthStartTime (startInstant delay : Int) : Int :=
  timeTruncate startInstant delay

/-- Body of the result loop of handleHealthResults (health_checker.go lines
57-84) for one received result. A result is none for a passing check and
some msg for a failing one; elapsed is time.Since(startTime) at the moment
the result is handled, and gracePeriod is the configured grace period, both
in nanoseconds. Returns the successor state and the event emitted on the
health state channel, if any. -/
def handleHealthResult (gracePeriod : Int) (maxConsecutiveFailures : Nat) (elapsed : Int)
    (st : HealthState) (result : Option String) : HealthState × Option HealthEvent :=
  match result with
  | some msg =>
    if st.neverPassedBefore ∧ elapsed < gracePeriod then
      (st, none)
    else
      let failures := st.consecutiveFailures + 1
      let st2 := { st with consecutiveFailures := failures }
      if maxConsecutiveFailures ≤ failures then
        (st2, some (HealthEvent.failedDueToUnhealthy msg))
      else
        (st2, some (HealthEvent.unhealthy msg))
  | none =>
    let ev := if st.neverPassedBefore ∨ 0 < st.consecutiveFailures then some HealthEvent.healthy else none
    (⟨false, 0⟩, ev)

/-- The result loop folded over a list of received results, each paired
with the elapsed time at which it is handled. Returns the final state and
the emitted events in order. -/
def runHealthResults (gracePeriod : Int) (maxConsecutiveFailures : Nat) :
    HealthState → List (Int × Option String) → HealthState × List HealthEvent
  | st, [] => (st, [])
  | st, (elapsed, res) :: rest =>
    let step := handleHealthResult gracePeriod maxConsecutiveFailures elapsed st res
    let tail := runHealthResults gracePeriod maxConsecutiveFailures step.1 rest
    (tail.1, step.2.toList ++ tail.2)

/-! ## Task event loop (executor.go taskEventLoop, shutDown, taskExitToEvent)

The loop state keeps the observable fields of the loop: whether a
Subscribed event stored a framework with the TASK_KILLING_STATE
capability, whether taskInfo and cmd are set, the fireHealthyHook latch,
and whether cmd.Stop has been invoked. -/

/-- Observable state of taskEventLoop. -/
structure LoopState where
  taskKillingCap : Bool
  taskInfoSet : Bool
  cmdSet : Bool
  fireHealthyHook : Bool
  cmdStopped : Bool
deriving DecidableEq, Repr

/-- State of the loop before any event is processed. -/
def initialLoopState : LoopState := ⟨false, false, false, true, false⟩

/-- Executor.shutDown (executor.go lines 550-571): a no-op when taskInfo or
cmd is nil; otherwise emits TASK_KILLING when the framework has the
TASK_KILLING_STATE capability, runs the BeforeTerminate hooks with errors
ignored, and stops the command. Returns the successor state and the status
updates emitted. -/
def shutDown (st : LoopState) : LoopState × List TaskState :=
  if st.taskInfoSet ∧ st.cmdSet then
    ({ st with cmdStopped := true },
     if st.taskKillingCap then [TaskState.taskKilling] else [])
  else
    (st, [])

/-- Result of processing one event in taskEventLoop: the successor state,
the task status updates emitted while processing it, and whether the loop
returned (ending the executor run). -/
structure StepResult where
  state : LoopState
  out : List TaskState
  returns : Bool
deriving DecidableEq, Repr

/-- One iteration of taskEventLoop (executor.go lines 349-442). The Launch
case runs launchTask, which emits TASK_STARTING first and TASK_RUNNING
after the command started, or TASK_FAILED when any launch step fails; the
ok oracle on the event abstracts that outcome. The Healthy case consults
the AfterTaskHealthy hooks only while the fireHealthyHook latch is set;
the hookErr oracle abstracts their result. The Shutdown case emits
TASK_KILLED when a task was launched and, unlike every other terminal
branch, does not return. -/
def loopStep (st : LoopState) : LoopEvent → StepResult
  | .subscribed cap => ⟨{ st with taskKillingCap := cap }, [], false⟩
  | .launch ok =>
    if ok then
      ⟨{ st with taskInfoSet := true, cmdSet := true },
       [TaskState.taskStarting, TaskState.taskRunning], false⟩
    else
      ⟨{ st with taskInfoSet := true, cmdSet := false },
       [TaskState.taskStarting, TaskState.taskFailed], true⟩
  | .healthy hookErr =>
    if st.fireHealthyHook then
      if hookErr then
        let s := shutDown { st with fireHealthyHook := false }
        ⟨s.1, s.2 ++ [TaskState.taskFailed], true⟩
      else
        ⟨{ st with fireHealthyHook := false }, [TaskState.taskRunning], false⟩
    else
      ⟨st, [TaskState.taskRunning], false⟩
  | .unhealthy _ => ⟨st, [TaskState.taskRunning], false⟩
  | .failedDueToUnhealthy _ =>
    let s := shutDown st
    ⟨s.1, TaskState.taskRunning :: (s.2 ++ [TaskState.taskFailed]), true⟩
  | .failedCert _ =>
    let s := shutDown st
    ⟨s.1, TaskState.taskRunning :: (s.2 ++ [TaskState.taskKilled]), true⟩
  | .commandExited _ =>
    let s := shutDown st
    ⟨s.1, s.2 ++ [TaskState.taskFailed], true⟩
  | .kill =>
    let s := shutDown st
    ⟨s.1, s.2 ++ [TaskState.taskKilled], true⟩
  | .shutdown =>
    let s := shutDown st
    ⟨s.1, s.2 ++ (if st.taskInfoSet then [TaskState.taskKilled] else []), false⟩

/-- taskEventLoop run over a list of received events: process events in
order until a case returns. Yields all emitted status updates and whether
the loop returned. -/
def runLoop (st : LoopState) : List LoopEvent → List TaskState × Bool
  | [] => ([], false)
  | e :: rest =>
    let r := loopStep st e
    if r.returns then (r.out, true)
    else
      let tail := runLoop r.state rest
      (r.out ++ tail.1, tail.2)

/-- Exit classification of a finished command (command.go TaskExitCode). -/
inductive TaskExitCode where
  | successCode
  | failedCode
  | killedCode
deriving DecidableEq, Repr

/-- TaskExitState (command.go): exit code together with the error text for
a failed exit. -/
structure TaskExitState where
  code : TaskExitCode
  err : String
deriving DecidableEq, Repr

/-- taskExitToEvent (executor.go lines 573-581): map the exit state of the
awaited command to the internal event posted on the loop channel. A killed
command posts nothing. -/
def taskExitToEvent : TaskExitState → Option LoopEvent
  | ⟨TaskExitCode.failedCode, e⟩ =>
    some (LoopEvent.commandExited ("Task exited with an error: " ++ e))
  | ⟨TaskExitCode.successCode, _⟩ =>
    some (LoopEvent.commandExited "Task exited with success (zero) exit code")
  | ⟨TaskExitCode.killedCode, _⟩ => none

/-! ## Staged process-tree termination (os/kill.go)

Pids and pgids are integers; the kernel process-group assignment is the
pgidOf function, and a process tree is a finite tree of pids. A signal
delivery kill(-pgid, sig) is recorded as the pair of its first and second
argument. -/

/-- Signal numbers (Linux values of syscall.SIGSTOP and friends). -/
def sigStop : Nat := 19

/-- SIGCONT. -/
def sigCont : Nat := 18

/-- SIGKILL. -/
def sigKill : Nat := 9

/-- SIGTERM. -/
def sigTerm : Nat := 15

/-- wrapWithStopAndCont (os/kill.go lines 177-183): bracket the target
signal with SIGSTOP and SIGCONT, omitting the SIGCONT after SIGKILL. -/
def wrapWithStopAndCont (signal : Nat) : List Nat :=
  let signals := [sigStop, signal]
  if signal ≠ sigKill then signals ++ [sigCont] else signals

/-- A process tree: the pid of the root and the trees of its children. -/
inductive PTree where
  | node (pid : Int) (children : List PTree)

/-- Pid of the root process of a tree. -/
def PTree.pid : PTree → Int
  | node p _ => p

mutual

/-- getAllChildren (os/kill.go lines 164-172): the whole descendant tree of
a process, the process itself excluded. The go loop ranges over the direct
children captured before any append, so the result lists the direct
children first and then, child by child, their descendants. -/
def getAllChildren : PTree → List PTree
  | .node _ cs => cs ++ getAllChildrenOfList cs

/-- Descendants of every tree in the list, concatenated. -/
def getAllChildrenOfList : List PTree → List PTree
  | [] => []
  | t :: ts => getAllChildren t ++ getAllChildrenOfList ts

end

/-- Pids inspected by getProcessGroupsInTree: all descendants of the root
followed by the root itself (processes = append(getAllChildren(proc),
proc)). -/
def allPids (t : PTree) : List Int :=
  (getAllChildren t).map PTree.pid ++ [t.pid]

/-- Loop body of getProcessGroupsInTree for one process: skip the pgid when
it is the executor one or already collected, append it otherwise. -/
def collectPgid (pgidOf : Int → Int) (curPgid : Int) (acc : List Int) (pid : Int) : List Int :=
  if pgidOf pid = curPgid then acc
  else if pgidOf pid ∈ acc then acc
  else acc ++ [pgidOf pid]

/-- getProcessGroupsInTree (os/kill.go lines 129-160): the process groups
of the descendant tree, skipping the executor process group curPgid and
deduplicating while keeping first occurrences. -/
def getProcessGroupsInTree (pgidOf : Int → Int) (curPgid : Int) (t : PTree) : List Int :=
  (allPids t).foldl (collectPgid pgidOf curPgid) []

/-- sendSignalsToProcessGroups (os/kill.go lines 185-196): for each signal
in order, for each pgid in order, kill(-pgid, signal). -/
def sendSignalsToProcessGroups (signals : List Nat) (pgids : List Int) : List (Int × Nat) :=
  (signals.map (fun signal => pgids.map (fun pgid => (-pgid, signal)))).flatten

/-- KillTree (os/kill.go lines 119-127): collect the process groups of the
tree and deliver the stop-signal-cont bracket to them. -/
def killTree (signal : Nat) (pgidOf : Int → Int) (curPgid : Int) (t : PTree) : List (Int × Nat) :=
  sendSignalsToProcessGroups (wrapWithStopAndCont signal) (getProcessGroupsInTree pgidOf curPgid t)

/-! ## Child command environment (command.go NewCommand,
combineExecutorAndTaskEnv) -/

/-- The executor configuration prefix (executor.go EnvironmentPrefix). -/
def environmentPrefixVal : String := "allegro_executor"

/-- ASCII lower-casing of one character. -/
def charLower (c : Char) : Char :=
  if 65 ≤ c.toNat ∧ c.toNat ≤ 90 then Char.ofNat (c.toNat + 32) else c

/-- Whether the first list, lower-cased, starts with the second list. -/
def lowerStartsWith : List Char → List Char → Bool
  | _, [] => true
  | [], _ :: _ => false
  | c :: cs, p :: ps => (charLower c == p) && lowerStartsWith cs ps

/-- Whether the name of an environment entry of the form NAME=value begins,
in any case combination, with the executor configuration prefix. -/
def hasExecutorConfigName (v : String) : Bool :=
  lowerStartsWith v.data environmentPrefixVal.data

/-- combineExecutorAndTaskEnv (command.go lines 146-155): the passed
environment followed by the task-specified variables rendered as
NAME=value. No variable is removed. -/
def combineExecutorAndTaskEnv (env : List String) (taskVars : List (String × String)) : List String :=
  env ++ taskVars.map (fun v => v.1 ++ "=" ++ v.2)

/-- Environment of the child command as built by launchTask and NewCommand:
launchTask passes the executor process environment with the hook-supplied
variables appended, and NewCommand combines that with the task-specified
variables. -/
def launchTaskChildEnv (osEnviron hookEnv : List String) (taskVars : List (String × String)) : List String :=
  combineExecutorAndTaskEnv (osEnviron ++ hookEnv) taskVars

/-! ## Buffered status updater (state/state.go bufferedUpdater) -/

/-- A task status update held by the updater. The uuid is the fresh random
identifier drawn by update. -/
structure TaskStatus where
  taskID : String
  state : TaskState
  message : Option String
  healthy : Option Bool
  uuid : String
deriving DecidableEq, Repr

/-- Updater state: the FIFO buffer channel and the unacknowledged map, the
latter as an association list keyed by uuid. -/
structure UpdaterState where
  buffer : List TaskStatus
  unAckStatuses : List (String × TaskStatus)
deriving DecidableEq, Repr

/-- Updater state right after BufferedUpdater constructed it. -/
def emptyUpdater : UpdaterState := ⟨[], []⟩

/-- bufferedUpdater.update: build the status with a fresh uuid and push it
on the buffer channel. -/
def updaterUpdate (u : UpdaterState) (taskID : String) (state : TaskState)
    (message : Option String) (healthy : Option Bool) (uuid : String) : UpdaterState :=
  { u with buffer := u.buffer ++ [⟨taskID, state, message, healthy, uuid⟩] }

/-- Insertion into the unacknowledged map, replacing an entry with the same
key. -/
def mapInsert (k : String) (v : TaskStatus) : List (String × TaskStatus) → List (String × TaskStatus)
  | [] => [(k, v)]
  | e :: rest => if e.1 = k then (k, v) :: rest else e :: mapInsert k v rest

/-- One iteration of the background sender of bufferedUpdater.loop
(state.go lines 149-173): take the next buffered status, record it in the
unacknowledged map, try to send it, and re-queue it at the tail of the
buffer when the send fails. With an empty buffer the iteration blocks, so
the state is unchanged. -/
def updaterLoopStep (u : UpdaterState) (sendOk : Bool) : UpdaterState :=
  match u.buffer with
  | [] => u
  | status :: rest =>
    let u2 : UpdaterState := ⟨rest, mapInsert status.uuid status u.unAckStatuses⟩
    if sendOk then u2 else { u2 with buffer := u2.buffer ++ [status] }

/-- bufferedUpdater.Acknowledge: drop the entry with the given uuid from
the unacknowledged map. -/
def updaterAcknowledge (u : UpdaterState) (id : String) : UpdaterState :=
  { u with unAckStatuses := u.unAckStatuses.filter (fun e => ¬(e.1 = id)) }

/-- bufferedUpdater.GetUnacknowledged: the statuses currently in the
unacknowledged map. -/
def getUnacknowledged (u : UpdaterState) : List TaskStatus :=
  u.unAckStatuses.map Prod.snd

/-! ## Theorems about the hook manager -/

/-- With ignoreErrors set, every hook is invoked and the manager returns
the concatenated environment of the successful hooks, never an error. -/
theorem handleEventAux_ignore (hooks : List HookRes) (acc : List String) :
    handleEventAux hooks true acc = (Except.ok (acc ++ successEnv hooks), hooks.length) := by
  induction hooks generalizing acc with
  | nil => simp [handleEventAux, successEnv]
  | cons h t ih =>
    cases herr : h.err with
    | some e => simp [handleEventAux, herr, ih, successEnv, Option.isNone]
    | none => simp [handleEventAux, herr, ih, successEnv, Option.isNone]

/-- With ignoreErrors unset and no failing hook, every hook is invoked and
all environments are concatenated. -/
theorem handleEventAux_no_failure (hooks : List HookRes) (acc : List String)
    (h : ∀ x ∈ hooks, x.err = none) :
    handleEventAux hooks false acc = (Except.ok (acc ++ successEnv hooks), hooks.length) := by
  induction hooks generalizing acc with
  | nil => simp [handleEventAux, successEnv]
  | cons x t ih =>
    have hx : x.err = none := h x (List.mem_cons_self x t)
    have ht : ∀ y ∈ t, y.err = none := fun y hy => h y (List.mem_cons_of_mem x hy)
    simp [handleEventAux, hx, ih _ ht, successEnv, Option.isNone]

/-- With ignoreErrors unset, the manager stops at the first failing hook
and returns its error; exactly the hooks up to and including it were
invoked. -/
theorem handleEventAux_first_failure (pre : List HookRes) (x : HookRes) (post : List HookRes)
    (acc : List String) (e : String) (hpre : ∀ y ∈ pre, y.err = none) (hx : x.err = some e) :
    handleEventAux (pre ++ x :: post) false acc = (Except.error e, pre.length + 1) := by
  induction pre generalizing acc with
  | nil => simp [handleEventAux, hx]
  | cons y t ih =>
    have hy : y.err = none := hpre y (List.mem_cons_self y t)
    have ht : ∀ z ∈ t, z.err = none := fun z hz => hpre z (List.mem_cons_of_mem y hz)
    simp [handleEventAux, hy, ih _ ht]

/-- C4: Manager.HandleEvent invokes hooks in order; with ignoreErrors unset
it stops at and returns the first hook error, discarding the environment
additions collected before it, and with all hooks successful it returns
their concatenated environments; with ignoreErrors set it invokes every
hook, never returns an error, and concatenates the environment additions
of exactly the successful hooks in hook order. -/
theorem hook_manager_policy (hooks : List HookRes) :
    handleEvent hooks true = (Except.ok (successEnv hooks), hooks.length)
    ∧ ((∀ x ∈ hooks, x.err = none) →
        handleEvent hooks false = (Except.ok (successEnv hooks), hooks.length))
    ∧ (∀ pre x post e, hooks = pre ++ x :: post → (∀ y ∈ pre, y.err = none) → x.err = some e →
        handleEvent hooks false = (Except.error e, pre.length + 1)) := by
  refine ⟨?_, ?_, ?_⟩
  · simpa using handleEventAux_ignore hooks []
  · intro h
    simpa using handleEventAux_no_failure hooks [] h
  · intro pre x post e hsplit hpre hx
    rw [hsplit]
    exact handleEventAux_first_failure pre x post [] e hpre hx

/-- Witness for hook_manager_policy at a three hook configuration whose
middle hook fails. -/
theorem hook_manager_policy_witness :
    handleEvent [⟨["A=1"], none⟩, ⟨["B=2"], some "boom"⟩, ⟨["C=3"], none⟩] true
      = (Except.ok ["A=1", "C=3"], 3)
    ∧ handleEvent [⟨["A=1"], none⟩, ⟨["B=2"], some "boom"⟩, ⟨["C=3"], none⟩] false
      = (Except.error "boom", 2) := by
  have h := hook_manager_policy [⟨["A=1"], none⟩, ⟨["B=2"], some "boom"⟩, ⟨["C=3"], none⟩]
  refine ⟨by rw [h.1]; rfl, ?_⟩
  have h2 := h.2.2 [⟨["A=1"], none⟩] ⟨["B=2"], some "boom"⟩ [⟨["C=3"], none⟩] "boom"
    rfl (by decide) rfl
  simpa using h2

/-! ## Theorems about certificate checking and configuration
sanitisation -/

/-- C7: checkCert computes the remaining validity minus the random jitter;
when that difference is not positive it returns an error and arms no timer
(in particular whenever NotAfter is not in the future, since the jitter is
non-negative), and otherwise it returns no error and arms a timer of
exactly that duration which injects a FailedDueToExpiredCertificate event;
the jitter drawn by random.Duration is uniform in the half-open range from
0 to randomExpirationRange. -/
theorem cert_check_policy (untilNotAfter jitter : Int) :
    (untilNotAfter - jitter ≤ 0 → checkCert untilNotAfter jitter = Except.error certErrMsg)
    ∧ (0 < untilNotAfter - jitter →
        checkCert untilNotAfter jitter
          = Except.ok (untilNotAfter - jitter, LoopEvent.failedCert "Certificate expired"))
    ∧ (0 ≤ jitter → untilNotAfter ≤ 0 → checkCert untilNotAfter jitter = Except.error certErrMsg)
    ∧ (∀ draw range : Int, 0 < range →
        randomDuration draw range = some (draw % range)
          ∧ 0 ≤ draw % range ∧ draw % range < range) := by
  refine ⟨?_, ?_, ?_, ?_⟩
  · intro h
    simp [checkCert, h]
  · intro h
    simp [checkCert, not_le.mpr h]
  · intro hj hu
    have hle : untilNotAfter - jitter ≤ 0 := by omega
    simp [checkCert, hle]
  · intro draw range hr
    refine ⟨?_, Int.emod_nonneg draw (by omega), Int.emod_lt_of_pos draw hr⟩
    simp [randomDuration, randIntn, not_le.mpr hr]

/-- Witness for cert_check_policy: a certificate one microsecond from
expiry with one nanosecond of jitter arms a 999 nanosecond timer, and an
already expired certificate fails. -/
theorem cert_check_policy_witness :
    checkCert 1000 1 = Except.ok (999, LoopEvent.failedCert "Certificate expired")
    ∧ checkCert (-5) 1 = Except.error certErrMsg
    ∧ randomDuration 10 7 = some 3 := by
  have h1 := (cert_check_policy 1000 1).2.1 (by decide)
  have h2 := (cert_check_policy (-5) 1).2.2.1 (by decide) (by decide)
  have h3 := ((cert_check_policy 0 0).2.2.2 10 7 (by decide)).1
  exact ⟨by simpa using h1, h2, by simpa using h3⟩

/-- The sanitised random expiration range is the configured one when
positive and three hours otherwise. -/
theorem sanitizeConfig_range (conf : Config) :
    (sanitizeConfig conf).randomExpirationRange
      = (if conf.randomExpirationRange ≤ 0 then 3 * timeHour else conf.randomExpirationRange) := by
  unfold sanitizeConfig
  dsimp only
  split <;> split <;> split <;> split <;> split <;> rfl

/-- C10: every executor constructed through StartExecutor carries a
sanitised configuration, whose randomExpirationRange is strictly positive;
hence the rand.Intn call inside random.Duration, which panics on a
non-positive argument, never panics on the checkCert path, and checkCert
as a whole cannot panic. -/
theorem sanitized_cert_check_no_panic (conf : Config) (draw untilNotAfter : Int) :
    0 < (sanitizeConfig conf).randomExpirationRange
    ∧ (randomDuration draw (sanitizeConfig conf).randomExpirationRange).isSome = true
    ∧ (checkCertRun untilNotAfter draw (sanitizeConfig conf).randomExpirationRange).isSome = true := by
  have hpos : 0 < (sanitizeConfig conf).randomExpirationRange := by
    rw [sanitizeConfig_range]
    split
    · have : (0 : Int) < timeSecond := by decide
      simp [timeHour]
      omega
    · omega
  have hsome : (randomDuration draw (sanitizeConfig conf).randomExpirationRange).isSome = true := by
    simp [randomDuration, randIntn, not_le.mpr hpos]
  refine ⟨hpos, hsome, ?_⟩
  simp [checkCertRun, Option.isSome_map]
  simpa using hsome

/-! ## Theorems about the buffered status updater -/

/-- C8 counterexample: immediately after update returns, before the
background sender loop has run, the status is still in the buffer channel
and the unacknowledged map is empty, so GetUnacknowledged returns no entry
rather than exactly one. -/
theorem updater_immediate_counterexample :
    getUnacknowledged (updaterUpdate emptyUpdater "T" TaskState.taskRunning none none "uuid-1") = []
    ∧ (getUnacknowledged (updaterUpdate emptyUpdater "T" TaskState.taskRunning none none "uuid-1")).length ≠ 1 := by
  exact ⟨rfl, by decide⟩

/-- C8 (amended): after a single update with state RUNNING, once the
background sender loop has taken the status from the buffer and recorded it
in the unacknowledged map (whether or not the send to the agent succeeds),
GetUnacknowledged returns exactly one entry and its state is RUNNING;
after Acknowledge with that entry's uuid, GetUnacknowledged returns the
empty list. -/
theorem updater_unacknowledged_replay (taskID uuid : String) (message : Option String)
    (healthy : Option Bool) (sendOk : Bool) :
    getUnacknowledged
        (updaterLoopStep (updaterUpdate emptyUpdater taskID TaskState.taskRunning message healthy uuid) sendOk)
      = [⟨taskID, TaskState.taskRunning, message, healthy, uuid⟩]
    ∧ getUnacknowledged
        (updaterAcknowledge
          (updaterLoopStep (updaterUpdate emptyUpdater taskID TaskState.taskRunning message healthy uuid) sendOk)
          uuid)
      = [] := by
  cases sendOk <;>
    simp [getUnacknowledged, updaterLoopStep, updaterUpdate, emptyUpdater, mapInsert,
      updaterAcknowledge]

/-! ## Theorems about the child command environment -/

/-- C6 counterexample: an executor environment variable whose name starts
with the configuration prefix (here in upper case) is passed through to
the child command environment untouched, because combineExecutorAndTaskEnv
in command.go removes nothing. -/
theorem child_env_counterexample :
    hasExecutorConfigName "ALLEGRO_EXECUTOR_TEST_1=x" = true
    ∧ "ALLEGRO_EXECUTOR_TEST_1=x" ∈ launchTaskChildEnv ["ALLEGRO_EXECUTOR_TEST_1=x"] [] [] := by
  decide

/-- C6 (amended): the child command environment built by NewCommand applies
no prefix based filtering: it contains a variable exactly when the variable
is in the executor process environment passed by launchTask (variables with
the executor configuration prefix included), in the hook-supplied
environment, or is one of the task-specified variables rendered as
NAME=value. -/
theorem child_env_pass_through (osEnviron hookEnv : List String)
    (taskVars : List (String × String)) (v : String) :
    v ∈ launchTaskChildEnv osEnviron hookEnv taskVars
      ↔ (v ∈ osEnviron ∨ v ∈ hookEnv ∨ ∃ p ∈ taskVars, v = p.1 ++ "=" ++ p.2) := by
  simp only [launchTaskChildEnv, combineExecutorAndTaskEnv, List.mem_append, List.mem_map,
    or_assoc]
  constructor
  · rintro (h | h | ⟨p, hp, rfl⟩)
    · exact Or.inl h
    · exact Or.inr (Or.inl h)
    · exact Or.inr (Or.inr ⟨p, hp, rfl⟩)
  · rintro (h | h | ⟨p, hp, rfl⟩)
    · exact Or.inl h
    · exact Or.inr (Or.inl h)
    · exact Or.inr (Or.inr ⟨p, hp, rfl⟩)

/-! ## Theorems about health result handling -/

/-- C3 counterexample: the startTime of the handler is the start instant
rounded down by time.Truncate, not the start instant minus the delay. With
start instant 15, delay 10, grace period 8 and a failure handled at
instant 14, the code drops the failure (elapsed is 4), while the claimed
condition computed from start minus delay (elapsed 9) says it must not be
dropped. -/
theorem health_start_time_counterexample :
    healthStartTime 15 10 ≠ 15 - 10
    ∧ (handleHealthResult 8 3 (14 - healthStartTime 15 10) ⟨true, 0⟩ (some "err")).2 = none
    ∧ ¬((14 : Int) - (15 - 10) < 8) := by
  decide

/-- C3 (amended): a failing health result is dropped, leaving the handler
state unchanged and emitting no event, exactly when no check has ever
passed and the time since startTime is below the grace period, where
startTime is the handler start instant rounded down to a multiple of the
delay (go time.Truncate), not the start instant minus the delay. -/
theorem health_grace_drop_iff (startInstant delay now grace : Int) (maxF : Nat)
    (st : HealthState) (msg : String) :
    handleHealthResult grace maxF (now - healthStartTime startInstant delay) st (some msg)
        = (st, none)
      ↔ (st.neverPassedBefore = true ∧ now - healthStartTime startInstant delay < grace) := by
  by_cases h : st.neverPassedBefore = true ∧ now - healthStartTime startInstant delay < grace
  · simp only [handleHealthResult, if_pos h]
    simpa using h
  · simp only [handleHealthResult, if_neg h]
    constructor
    · intro heq
      exact absurd (congrArg Prod.snd heq) (by split <;> simp)
    · intro hc
      exact absurd hc h

/-- Processing m consecutive failures from a state that has passed before:
every failure increments the counter and the i-th of them (counting from
the current counter value) emits FailedDueToUnhealthy once the counter
reaches the threshold and Unhealthy before that. -/
theorem runHealthResults_failures (grace : Int) (maxF : Nat) (elapsed : Int) (msg : String) :
    ∀ (m k : Nat),
      runHealthResults grace maxF ⟨false, k⟩ (List.replicate m (elapsed, some msg))
        = (⟨false, k + m⟩,
           (List.range m).map
             (fun i => if maxF ≤ k + i + 1 then HealthEvent.failedDueToUnhealthy msg
                       else HealthEvent.unhealthy msg)) := by
  intro m
  induction m with
  | zero => intro k; simp [runHealthResults]
  | succ m ih =>
    intro k
    rw [List.replicate_succ, runHealthResults]
    have hstep : handleHealthResult grace maxF elapsed ⟨false, k⟩ (some msg)
        = (⟨false, k + 1⟩,
           some (if maxF ≤ k + 1 then HealthEvent.failedDueToUnhealthy msg
                 else HealthEvent.unhealthy msg)) := by
      simp only [handleHealthResult]
      rw [if_neg (by simp)]
      split <;> simp_all
    rw [hstep]
    simp only [ih (k + 1), List.range_succ_eq_map, List.map_cons, List.map_map]
    refine congrArg₂ Prod.mk (by simp [Nat.add_assoc, Nat.add_comm 1 m]) ?_
    simp only [Option.toList_some, List.cons_append, List.nil_append]
    refine congrArg₂ List.cons (by simp) ?_
    refine List.map_congr_left ?_
    intro i _
    simp only [Function.comp_apply]
    refine if_congr (by omega) rfl rfl

/-- C2: after the grace window, each failing result increments the
consecutive failure counter and emits FailedDueToUnhealthy when the
counter has reached the threshold and Unhealthy otherwise; starting from a
zero counter the first failures up to the threshold emit Unhealthy and the
one reaching it emits FailedDueToUnhealthy; a passing result emits Healthy
exactly when it is the first ever pass or follows at least one counted
failure, emits nothing otherwise, and always resets the counter. -/
theorem health_result_policy (grace : Int) (maxF : Nat) (elapsed : Int) (st : HealthState)
    (msg : String) (j : Nat) :
    (¬(st.neverPassedBefore = true ∧ elapsed < grace) →
      handleHealthResult grace maxF elapsed st (some msg)
        = ({ st with consecutiveFailures := st.consecutiveFailures + 1 },
           some (if maxF ≤ st.consecutiveFailures + 1 then HealthEvent.failedDueToUnhealthy msg
                 else HealthEvent.unhealthy msg)))
    ∧ (1 ≤ j → j ≤ maxF →
      (runHealthResults grace maxF ⟨false, 0⟩ (List.replicate j (elapsed, some msg))).2
        = List.replicate (j - 1) (HealthEvent.unhealthy msg)
            ++ [if j = maxF then HealthEvent.failedDueToUnhealthy msg
                else HealthEvent.unhealthy msg])
    ∧ handleHealthResult grace maxF elapsed st none
        = (⟨false, 0⟩,
           if st.neverPassedBefore = true ∨ 0 < st.consecutiveFailures
           then some HealthEvent.healthy else none) := by
  refine ⟨?_, ?_, ?_⟩
  · intro h
    simp only [handleHealthResult]
    rw [if_neg (by simpa using h)]
    split <;> simp_all
  · intro hj hjm
    rw [runHealthResults_failures grace maxF elapsed msg j 0]
    obtain ⟨i, rfl⟩ : ∃ i, j = i + 1 := ⟨j - 1, by omega⟩
    simp only [List.range_succ, List.map_append, List.map_cons, List.map_nil,
      Nat.add_sub_cancel]
    refine congrArg₂ List.append ?_ ?_
    · rw [List.eq_replicate_iff]
      refine ⟨by simp, ?_⟩
      intro b hb
      obtain ⟨x, hx, rfl⟩ := List.mem_map.mp hb
      have hxlt : x < i := List.mem_range.mp hx
      rw [if_neg (by omega)]
    · refine congrArg₂ List.cons ?_ rfl
      refine if_congr (by omega) rfl rfl
  · simp only [handleHealthResult]

/-- Witness for health_result_policy: with threshold 3, a failure at
counter 1 past the grace window emits Unhealthy; three failures in a row
from a fresh counter emit Unhealthy, Unhealthy, FailedDueToUnhealthy; a
pass after a failure emits Healthy and resets the counter. -/
theorem health_result_policy_witness :
    handleHealthResult 10 3 12 ⟨false, 1⟩ (some "m") = (⟨false, 2⟩, some (HealthEvent.unhealthy "m"))
    ∧ (runHealthResults 10 3 ⟨false, 0⟩ (List.replicate 3 (12, some "m"))).2
        = [HealthEvent.unhealthy "m", HealthEvent.unhealthy "m",
           HealthEvent.failedDueToUnhealthy "m"]
    ∧ handleHealthResult 10 3 12 ⟨false, 2⟩ none = (⟨false, 0⟩, some HealthEvent.healthy) := by
  have h := health_result_policy 10 3 12 ⟨false, 1⟩ "m" 3
  have h2 := health_result_policy 10 3 12 ⟨false, 2⟩ "m" 3
  refine ⟨?_, ?_, ?_⟩
  · have := h.1 (by decide)
    simpa using this
  · have := h.2.1 (by decide) (by decide)
    simpa using this
  · have := h2.2.2
    simpa using this

/-! ## Theorems about the task event loop -/

/-- The status updates emitted inside shutDown contain no terminal state
(at most a TASK_KILLING). -/
theorem countTerminal_shutDown (st : LoopState) : countTerminal (shutDown st).2 = 0 := by
  unfold shutDown
  split
  · split <;> simp [countTerminal, TaskState.isTerminal]
  · simp [countTerminal]

/-- C9: both a clean (zero) and a failed child exit are turned into a
CommandExited event by taskExitToEvent, and the loop handles every
CommandExited event by returning after shutting the command down and
emitting TASK_FAILED as its only terminal status; a clean exit is never
reported as TASK_FINISHED. -/
theorem command_exit_reports_failed (st : LoopState) (msg e : String) :
    taskExitToEvent ⟨TaskExitCode.successCode, e⟩
        = some (LoopEvent.commandExited "Task exited with success (zero) exit code")
    ∧ taskExitToEvent ⟨TaskExitCode.failedCode, e⟩
        = some (LoopEvent.commandExited ("Task exited with an error: " ++ e))
    ∧ (loopStep st (LoopEvent.commandExited msg)).returns = true
    ∧ countTerminal (loopStep st (LoopEvent.commandExited msg)).out = 1
    ∧ TaskState.taskFailed ∈ (loopStep st (LoopEvent.commandExited msg)).out
    ∧ TaskState.taskFinished ∉ (loopStep st (LoopEvent.commandExited msg)).out
    ∧ (st.taskInfoSet = true → st.cmdSet = true →
        (loopStep st (LoopEvent.commandExited msg)).state.cmdStopped = true) := by
  obtain ⟨cap, ti, cm, fh, cs⟩ := st
  refine ⟨rfl, rfl, ?_, ?_, ?_, ?_, ?_⟩ <;>
    cases cap <;> cases ti <;> cases cm <;>
      simp [loopStep, shutDown, countTerminal, TaskState.isTerminal]

/-- Witness for command_exit_reports_failed on a launched task. -/
theorem command_exit_reports_failed_witness :
    countTerminal (loopStep ⟨true, true, true, true, false⟩ (LoopEvent.commandExited "m")).out = 1
    ∧ (loopStep ⟨true, true, true, true, false⟩ (LoopEvent.commandExited "m")).state.cmdStopped = true
    ∧ taskExitToEvent ⟨TaskExitCode.successCode, ""⟩
        = some (LoopEvent.commandExited "Task exited with success (zero) exit code") := by
  have h := command_exit_reports_failed ⟨true, true, true, true, false⟩ "m" ""
  exact ⟨h.2.2.2.1, h.2.2.2.2.2.2 rfl rfl, h.1⟩

/-- C1 counterexample: after a successful launch, two Shutdown events
followed by a Kill event drive the loop through three terminal status
updates, because the Shutdown branch emits TASK_KILLED without returning
from the loop. -/
theorem shutdown_repeats_terminal_counterexample :
    (runLoop initialLoopState
        [LoopEvent.launch true, LoopEvent.shutdown, LoopEvent.shutdown, LoopEvent.kill]).2 = true
    ∧ (runLoop initialLoopState
        [LoopEvent.launch true, LoopEvent.shutdown, LoopEvent.shutdown, LoopEvent.kill]).1
      = [TaskState.taskStarting, TaskState.taskRunning, TaskState.taskKilled,
         TaskState.taskKilled, TaskState.taskKilled]
    ∧ countTerminal (runLoop initialLoopState
        [LoopEvent.launch true, LoopEvent.shutdown, LoopEvent.shutdown, LoopEvent.kill]).1 = 3 := by
  decide

/-- Processing any event other than Shutdown emits exactly one terminal
status when the loop returns on it and none otherwise. -/
theorem loopStep_terminal_count (st : LoopState) (e : LoopEvent)
    (he : e ≠ LoopEvent.shutdown) :
    countTerminal (loopStep st e).out = (if (loopStep st e).returns then 1 else 0) := by
  have hsd := countTerminal_shutDown st
  have hsd2 := countTerminal_shutDown { st with fireHealthyHook := false }
  cases e with
  | subscribed cap => simp [loopStep, countTerminal]
  | launch ok =>
    cases ok <;> simp [loopStep, countTerminal, TaskState.isTerminal]
  | healthy hookErr =>
    cases hfh : st.fireHealthyHook <;> cases hookErr <;>
      simp_all [loopStep, countTerminal, TaskState.isTerminal, List.countP_append]
  | unhealthy msg => simp [loopStep, countTerminal, TaskState.isTerminal]
  | failedDueToUnhealthy msg =>
    simp_all [loopStep, countTerminal, TaskState.isTerminal, List.countP_append,
      List.countP_cons]
  | failedCert msg =>
    simp_all [loopStep, countTerminal, TaskState.isTerminal, List.countP_append,
      List.countP_cons]
  | commandExited msg =>
    simp_all [loopStep, countTerminal, TaskState.isTerminal, List.countP_append]
  | kill =>
    simp_all [loopStep, countTerminal, TaskState.isTerminal, List.countP_append]
  | shutdown => exact absurd rfl he

/-- Over any event list free of Shutdown events, the loop emits exactly
one terminal status when it returns and none while it has not. -/
theorem runLoop_terminal_count (evs : List LoopEvent) :
    ∀ st : LoopState, (∀ e ∈ evs, e ≠ LoopEvent.shutdown) →
      countTerminal (runLoop st evs).1 = (if (runLoop st evs).2 then 1 else 0) := by
  induction evs with
  | nil => intro st _; simp [runLoop, countTerminal]
  | cons e rest ih =>
    intro st h
    have he : e ≠ LoopEvent.shutdown := h e (List.mem_cons_self e rest)
    have hrest : ∀ x ∈ rest, x ≠ LoopEvent.shutdown :=
      fun x hx => h x (List.mem_cons_of_mem e hx)
    have hstep := loopStep_terminal_count st e he
    rw [runLoop]
    by_cases hr : (loopStep st e).returns = true
    · rw [if_pos hr]
      simpa [hr] using hstep
    · rw [if_neg hr]
      have hr0 : (loopStep st e).returns = false := by
        cases hb : (loopStep st e).returns
        · rfl
        · exact absurd hb hr
      simp only [countTerminal, List.countP_append] at *
      rw [hstep, hr0, ih (loopStep st e).state hrest]
      simp

/-- C1 (amended): for a task whose Launch was processed successfully, the
loop emits exactly one terminal status over the whole run for every
sequence of subsequent internal events that contains no Shutdown event
(duplicated Kill events included), the terminal being emitted exactly by
the event on which the loop returns; the Shutdown branch however emits
TASK_KILLED without returning, so each processed Shutdown event adds one
further terminal status. -/
theorem launch_single_terminal (cap : Bool) (evs : List LoopEvent)
    (h : LoopEvent.shutdown ∉ evs) :
    countTerminal
        (runLoop initialLoopState (LoopEvent.subscribed cap :: LoopEvent.launch true :: evs)).1
      = (if (runLoop initialLoopState
              (LoopEvent.subscribed cap :: LoopEvent.launch true :: evs)).2
         then 1 else 0) := by
  refine runLoop_terminal_count _ _ ?_
  intro e he
  rcases List.mem_cons.mp he with rfl | he2
  · exact fun hc => LoopEvent.noConfusion hc
  rcases List.mem_cons.mp he2 with rfl | he3
  · exact fun hc => LoopEvent.noConfusion hc
  · exact fun hc => h (hc ▸ he3)

/-- Witness for launch_single_terminal: launch followed by duplicated Kill
events yields exactly one terminal status. -/
theorem launch_single_terminal_witness :
    countTerminal
        (runLoop initialLoopState
          [LoopEvent.subscribed false, LoopEvent.launch true, LoopEvent.kill, LoopEvent.kill]).1
      = 1
    ∧ (runLoop initialLoopState
        [LoopEvent.subscribed false, LoopEvent.launch true, LoopEvent.kill, LoopEvent.kill]).2
      = true := by
  have h := launch_single_terminal false [LoopEvent.kill, LoopEvent.kill] (by decide)
  exact ⟨by simpa using h, by decide⟩

/-! ## Theorems about staged tree termination -/

/-- Invariant of the pgid collection fold: the collected list stays
duplicate free, never contains the executor pgid, keeps what was already
collected, and ends up containing the pgid of every processed pid other
than the executor pgid. -/
theorem collectPgid_foldl_invariant (pgidOf : Int → Int) (curPgid : Int) :
    ∀ (pids : List Int) (acc : List Int), acc.Nodup → curPgid ∉ acc →
      (pids.foldl (collectPgid pgidOf curPgid) acc).Nodup
      ∧ curPgid ∉ pids.foldl (collectPgid pgidOf curPgid) acc
      ∧ (∀ g ∈ acc, g ∈ pids.foldl (collectPgid pgidOf curPgid) acc)
      ∧ (∀ p ∈ pids, pgidOf p ≠ curPgid →
          pgidOf p ∈ pids.foldl (collectPgid pgidOf curPgid) acc) := by
  intro pids
  induction pids with
  | nil =>
    intro acc hnd hcur
    exact ⟨hnd, hcur, fun g hg => hg, fun p hp => absurd hp (List.not_mem_nil p)⟩
  | cons p rest ih =>
    intro acc hnd hcur
    have hsub : ∀ g ∈ acc, g ∈ collectPgid pgidOf curPgid acc p := by
      intro g hg
      unfold collectPgid
      split
      · exact hg
      · split
        · exact hg
        · exact List.mem_append_left _ hg
    have hnd2 : (collectPgid pgidOf curPgid acc p).Nodup := by
      unfold collectPgid
      split
      · exact hnd
      · split
        · exact hnd
        · next hne hnm => simpa [List.nodup_append] using ⟨hnd, hnm⟩
    have hcur2 : curPgid ∉ collectPgid pgidOf curPgid acc p := by
      unfold collectPgid
      split
      · exact hcur
      · split
        · exact hcur
        · next hne _ =>
            intro hmem
            rcases List.mem_append.mp hmem with hmem | hmem
            · exact hcur hmem
            · exact hne (List.mem_singleton.mp hmem).symm
    have hin : pgidOf p ≠ curPgid → pgidOf p ∈ collectPgid pgidOf curPgid acc p := by
      intro hne
      unfold collectPgid
      rw [if_neg hne]
      split
      · assumption
      · exact List.mem_append_right _ (List.mem_singleton.mpr rfl)
    obtain ⟨ind, icur, imono, iall⟩ := ih (collectPgid pgidOf curPgid acc p) hnd2 hcur2
    refine ⟨ind, icur, ?_, ?_⟩
    · intro g hg
      exact imono g (hsub g hg)
    · intro q hq hqne
      rcases List.mem_cons.mp hq with rfl | hq2
      · exact imono _ (hin hqne)
      · exact iall q hq2 hqne

/-- In a duplicate free pgid list containing g, the signal row addressed to
the groups contains exactly one delivery to the group of g. -/
theorem filter_signal_row (s : Nat) (g : Int) :
    ∀ pgids : List Int, g ∈ pgids → pgids.Nodup →
      (pgids.map (fun pgid => (-pgid, s))).filter (fun k => k.1 = -g) = [(-g, s)] := by
  intro pgids
  induction pgids with
  | nil => intro hg; exact absurd hg (List.not_mem_nil g)
  | cons p rest ih =>
    intro hg hnd
    rcases List.mem_cons.mp hg with rfl | hg2
    · have hgr : g ∉ rest := (List.nodup_cons.mp hnd).1
      have hrest : (rest.map (fun pgid => (-pgid, s))).filter (fun k => k.1 = -g) = [] := by
        rw [List.filter_eq_nil_iff]
        intro k hk
        obtain ⟨q, hq, rfl⟩ := List.mem_map.mp hk
        simp only [decide_eq_true_eq, neg_inj]
        intro hqp
        exact hgr (hqp ▸ hq)
      simp [List.filter_cons, hrest]
    · have hne : p ≠ g := by
        rintro rfl
        exact (List.nodup_cons.mp hnd).1 hg2
      rw [List.map_cons, List.filter_cons, if_neg (by simpa using hne)]
      exact ih hg2 (List.nodup_cons.mp hnd).2

/-- The stop and cont bracket written as an append. -/
theorem wrapWithStopAndCont_eq (signal : Nat) :
    wrapWithStopAndCont signal
      = [sigStop, signal] ++ (if signal = sigKill then [] else [sigCont]) := by
  unfold wrapWithStopAndCont
  split <;> simp_all

/-- C5: KillTree signals exactly the deduplicated process groups of the
descendant tree, with the executor group excluded; every delivery is a
kill of the negated pgid; and projected on any single collected group the
deliveries are, in order, SIGSTOP, then the target signal, then SIGCONT,
the SIGCONT being omitted when the target signal is SIGKILL. -/
theorem kill_tree_signal_policy (signal : Nat) (pgidOf : Int → Int) (curPgid : Int) (t : PTree) :
    (getProcessGroupsInTree pgidOf curPgid t).Nodup
    ∧ curPgid ∉ getProcessGroupsInTree pgidOf curPgid t
    ∧ (∀ p ∈ allPids t, pgidOf p ≠ curPgid →
        pgidOf p ∈ getProcessGroupsInTree pgidOf curPgid t)
    ∧ (∀ k ∈ killTree signal pgidOf curPgid t,
        ∃ g ∈ getProcessGroupsInTree pgidOf curPgid t, k.1 = -g)
    ∧ (∀ g ∈ getProcessGroupsInTree pgidOf curPgid t,
        ((killTree signal pgidOf curPgid t).filter (fun k => k.1 = -g)).map Prod.snd
          = [sigStop, signal] ++ (if signal = sigKill then [] else [sigCont])) := by
  obtain ⟨hnd, hcur, _, hall⟩ :=
    collectPgid_foldl_invariant pgidOf curPgid (allPids t) [] List.nodup_nil
      (List.not_mem_nil curPgid)
  refine ⟨hnd, hcur, hall, ?_, ?_⟩
  · intro k hk
    unfold killTree sendSignalsToProcessGroups at hk
    obtain ⟨row, hrow, hkrow⟩ := List.mem_flatten.mp hk
    obtain ⟨s, _, rfl⟩ := List.mem_map.mp hrow
    obtain ⟨g, hg, rfl⟩ := List.mem_map.mp hkrow
    exact ⟨g, hg, rfl⟩
  · intro g hg
    unfold killTree sendSignalsToProcessGroups
    rw [← wrapWithStopAndCont_eq]
    generalize wrapWithStopAndCont signal = signals
    induction signals with
    | nil => simp
    | cons s srest ihs =>
      rw [List.map_cons, List.flatten_cons, List.filter_append, List.map_append,
        filter_signal_row s g _ hg hnd, ihs]
      rfl

/-- Witness for kill_tree_signal_policy on a three process tree spanning
two process groups, with SIGTERM as the target signal. -/
theorem kill_tree_signal_policy_witness :
    getProcessGroupsInTree (fun p => if p = 1 then 5 else if p = 2 then 5 else 7) 100
        (PTree.node 1 [PTree.node 2 [], PTree.node 3 []]) = [5, 7]
    ∧ ((killTree sigTerm (fun p => if p = 1 then 5 else if p = 2 then 5 else 7) 100
          (PTree.node 1 [PTree.node 2 [], PTree.node 3 []])).filter
            (fun k => k.1 = -5)).map Prod.snd
      = [sigStop, sigTerm, sigCont] := by
  have h := kill_tree_signal_policy sigTerm
    (fun p => if p = 1 then 5 else if p = 2 then 5 else 7) 100
    (PTree.node 1 [PTree.node 2 [], PTree.node 3 []])
  have h5 := h.2.2.2.2 5 (by decide)
  exact ⟨by decide, by rw [h5]; rfl⟩

end MesosExec
